import Mathlib

/-!
Verification of the document-composition routine `fill_document` of `amis.py`.

The Python routine opens a docx template, locates a "photo appendix" table
by content, fills labeled table cells with images according to a fixed slot
mapping, appends a signature section and saves the result.  We embed the
routine shallowly: documents, tables, rows, cells and paragraphs become
inductive data, the filesystem becomes an explicit map from paths to file
contents, and exceptions become `Except`.
-/

namespace Amis

/-- Python `str.strip()` on the whitespace characters Lean knows about:
drop whitespace from both ends of the character list. -/
def pyStrip (s : String) : String :=
  String.mk (((s.data.dropWhile Char.isWhitespace).reverse.dropWhile Char.isWhitespace).reverse)

/-- Python `sep.join l`. -/
def pyJoin (sep : String) : List String → String
  | [] => ""
  | [x] => x
  | x :: y :: xs => x ++ sep ++ pyJoin sep (y :: xs)

/-- Occurrence of `pat` as a contiguous run of `l` starting at any
position: the scan behind Python's substring test. -/
def charsContain (pat : List Char) : List Char → Bool
  | [] => pat.isEmpty
  | c :: cs => pat.isPrefixOf (c :: cs) || charsContain pat cs

/-- Python substring test `pat in s`, over the character lists. -/
def strContains (s pat : String) : Bool :=
  charsContain pat.data s.data

/-- Python list slice `xs[a:b]` with `0 ≤ a ≤ b`: total, never out of range. -/
def pySlice (xs : List α) (a b : Nat) : List α :=
  (xs.drop a).take (b - a)

/-- A paragraph: its text, and the pictures embedded in its runs
(each picture is recorded by the path it was inserted from; all table-cell
pictures use the same fixed width `Inches(2.2)`, so the width is not kept). -/
structure Para where
  text : String
  pics : List String
deriving DecidableEq

/-- The empty paragraph appended by `add_paragraph("")`. -/
def emptyPara : Para := ⟨"", []⟩

/-- A table cell: a list of paragraphs. -/
structure Cell where
  paragraphs : List Para
deriving DecidableEq

/-- python-docx `cell.text`: the paragraph texts joined by `"\n"`. -/
def cellText (c : Cell) : String :=
  pyJoin "\n" (c.paragraphs.map Para.text)

/-- A table row. -/
structure Row where
  cells : List Cell
deriving DecidableEq

/-- A table. -/
structure Table where
  rows : List Row
deriving DecidableEq

/-- A body-level element of the document, as produced by `add_heading`,
`add_paragraph`, `add_picture` (width in tenths of an inch) and
`add_page_break`. -/
inductive BodyItem where
  | heading (text : String) (level : Nat)
  | para (text : String)
  | picture (path : String) (widthTenthsInch : Nat)
  | pageBreak
deriving DecidableEq

/-- A document: its tables and its body elements. -/
structure Document where
  tables : List Table
  body : List BodyItem
deriving DecidableEq

/-- The slot mapping built at the top of `fill_document`:
label text ↦ slice of the input image list (`images[0:1]`, `images[1:2]`,
`images[2:3]`, `images[3:5]`, `images[5:7]`). -/
def slotMap (images : List String) : List (String × List String) :=
  [("Thông tin rao bán/sổ đỏ", pySlice images 0 1),
   ("Mặt trước tài sản", pySlice images 1 2),
   ("Tổng thể tài sản", pySlice images 2 3),
   ("Đường phía trước tài sản", pySlice images 3 5),
   ("Ảnh khác", pySlice images 5 7)]

/-- `_table_has_phu_luc`: join the text of every cell of every row with
`"\n"` and test that both marker substrings occur. -/
def table_has_phu_luc (tbl : Table) : Bool :=
  let text := pyJoin "\n" (((tbl.rows.map Row.cells).flatten).map cellText)
  strContains text "Phụ lục" && strContains text "Ảnh TSSS"

/-- The clearing loop `for p in dest.paragraphs: if p.text: p.text = ""`.
python-docx's `text` setter replaces the paragraph's runs, so a paragraph
with non-empty text loses its pictures too; paragraphs whose text is
already `""` are untouched. -/
def clearCell (c : Cell) : Cell :=
  ⟨c.paragraphs.map fun p => if p.text ≠ "" then emptyPara else p⟩

/-- The image loop over one slot: for each assigned path that exists on
disk, `dest.paragraphs[0].add_run().add_picture(pth)` (an `IndexError` if
the cell has no paragraph, then a library failure when the image cannot be
embedded, reported by the oracle `embedErr`), followed by
`dest.add_paragraph("")`.  Paths that do not exist are skipped. -/
def addImagesToCell (fs : String → Bool) (embedErr : String → Option String) :
    List String → Cell → Except String Cell
  | [], c => .ok c
  | pth :: rest, c =>
    if fs pth then
      match c.paragraphs with
      | [] => .error "list index out of range"
      | p0 :: ps =>
        match embedErr pth with
        | some e => .error e
        | none =>
            addImagesToCell fs embedErr rest
              ⟨{ p0 with pics := p0.pics ++ [pth] } :: (ps ++ [emptyPara])⟩
    else addImagesToCell fs embedErr rest c

/-- Fill one destination cell: clear its non-empty paragraph texts, then
insert the slot's existing images. -/
def fillCellE (fs : String → Bool) (embedErr : String → Option String)
    (imgs : List String) (c : Cell) : Except String Cell :=
  addImagesToCell fs embedErr imgs (clearCell c)

/-- One pass of `for ci, cell in enumerate(row.cells)` starting at index
`ci`, with `fuel` iterations remaining.  The cell list is read and written
in place: the label is the current (possibly already mutated) text of the
cell at `ci` (`cells[ci]? = none` means the enumeration is exhausted), the
test `ci + 1 < len(row.cells)` becomes `cells[ci+1]?`, and a match updates
the cell at `ci + 1`. -/
def processRowAux (slots : List (String × List String)) (fs : String → Bool)
    (embedErr : String → Option String) :
    Nat → Nat → List Cell → Except String (List Cell)
  | 0, _, cells => .ok cells
  | fuel + 1, ci, cells =>
    match cells[ci]? with
    | none => .ok cells
    | some cell =>
      match List.lookup (pyStrip (cellText cell)) slots with
      | some imgs =>
        match cells[ci + 1]? with
        | none => processRowAux slots fs embedErr fuel (ci + 1) cells
        | some dest =>
          match fillCellE fs embedErr imgs dest with
          | .error e => .error e
          | .ok dest' =>
              processRowAux slots fs embedErr fuel (ci + 1) (cells.set (ci + 1) dest')
      | none => processRowAux slots fs embedErr fuel (ci + 1) cells

/-- The inner loop of the target-table branch on one row's cell list. -/
def processRow (slots : List (String × List String)) (fs : String → Bool)
    (embedErr : String → Option String) (cells : List Cell) :
    Except String (List Cell) :=
  processRowAux slots fs embedErr cells.length 0 cells

/-- The target-table branch applied to every row of the table. -/
def processTable (slots : List (String × List String)) (fs : String → Bool)
    (embedErr : String → Option String) (tbl : Table) : Except String Table := do
  let rows ← tbl.rows.mapM fun r => do
    let cs ← processRow slots fs embedErr r.cells
    pure (Row.mk cs)
  pure (Table.mk rows)

/-- The scan `for tbl in doc.tables: if _table_has_phu_luc(tbl): ... break`
combined with the in-place mutation of the selected table: `none` means no
table matched; `some tables'` is the table list with the first matching
table processed and every other table untouched. -/
def processTables (slots : List (String × List String)) (fs : String → Bool)
    (embedErr : String → Option String) :
    List Table → Except String (Option (List Table))
  | [] => .ok none
  | tbl :: rest =>
    if table_has_phu_luc tbl then do
      let tbl' ← processTable slots fs embedErr tbl
      pure (some (tbl' :: rest))
    else do
      match ← processTables slots fs embedErr rest with
      | none => pure none
      | some rest' => pure (some (tbl :: rest'))

/-- The fallback loop: append each existing image of the input list as a
body picture at width `Inches(3)` followed by a spacer paragraph. -/
def addFallbackImages (fs : String → Bool) (embedErr : String → Option String) :
    List String → List BodyItem → Except String (List BodyItem)
  | [], body => .ok body
  | pth :: rest, body =>
    if fs pth then
      match embedErr pth with
      | some msg => .error msg
      | none =>
          addFallbackImages fs embedErr rest (body ++ [.picture pth 30, .para ""])
    else addFallbackImages fs embedErr rest body

/-- Lines 552–588 of `fill_document`: build the slot map, select and fill
the target table, or take the fallback path when no table matches. -/
def fill_main (fs : String → Bool) (embedErr : String → Option String)
    (doc : Document) (images : List String) : Except String Document := do
  let slots := slotMap images
  match ← processTables slots fs embedErr doc.tables with
  | some tables' => pure { doc with tables := tables' }
  | none => do
      let body' ← addFallbackImages fs embedErr images
        (doc.body ++ [.heading "Phụ lục Ảnh TSSS" 2])
      pure { doc with body := body' }

/-- The signature step, lines 592–596: when a signature path is supplied
(Python truthiness: not `None` and not `""`) and exists on disk, try to
embed it at width `Inches(2)`; a failure is caught and replaced by an
explanatory paragraph.  Otherwise nothing is added. -/
def signatureItems (fs : String → Bool) (embedErr : String → Option String)
    (sig : Option String) : List BodyItem :=
  match sig with
  | none => []
  | some s =>
    if s ≠ "" ∧ fs s then
      match embedErr s with
      | none => [.picture s 20]
      | some e => [.para ("[Không chèn được chữ ký: " ++ e ++ "]")]
    else []

/-- The in-memory part of `fill_document` after the template has been
opened: main phase, then unconditionally a page break and the signature
heading, then the signature step. -/
def fill_doc (fs : String → Bool) (embedErr : String → Option String)
    (doc : Document) (images : List String) (sig : Option String) :
    Except String Document := do
  let d ← fill_main fs embedErr doc images
  pure { d with body :=
    d.body ++ [.pageBreak, .heading "Chữ ký cán bộ khảo sát" 2]
      ++ signatureItems fs embedErr sig }

/-- Contents of a file on disk: a well-formed docx package, or any other
file (image bytes, a corrupt docx, ...). -/
inductive FileData where
  | doc (d : Document)
  | raw
deriving DecidableEq

/-- The filesystem: which files exist (and what a docx file parses to),
and which directories exist. -/
structure FileSys where
  files : String → Option FileData
  dirs : String → Bool

/-- `os.path.exists`: true for files and for directories. -/
def pathExists (fsys : FileSys) (p : String) : Bool :=
  (fsys.files p).isSome || fsys.dirs p

/-- Python `posixpath.dirname`: everything up to the last `/`, with
trailing slashes stripped unless the head consists only of slashes. -/
def pyDirname (p : String) : String :=
  let cs := p.data
  let i := match cs.reverse.findIdx? (· = '/') with
    | some k => cs.length - k
    | none => 0
  let head := cs.take i
  if head.isEmpty || head.all (· = '/') then String.mk head
  else String.mk ((head.reverse.dropWhile (· = '/')).reverse)

/-- The directory created by `os.makedirs(os.path.dirname(output_path) or
".", exist_ok=True)`. -/
def outputDir (output_path : String) : String :=
  if pyDirname output_path = "" then "." else pyDirname output_path

/-- `fill_document(template_path, images, signature_path, output_path)`:
check the template exists (else `FileNotFoundError`), open it (a non-docx
file makes `Document(...)` raise), run the in-memory composition and, only
if everything succeeded, create the output directory and write the output
file.  The second component is the filesystem after the call: unchanged on
every error path, since the save is the very last step. -/
def fill_document (fsys : FileSys) (embedErr : String → Option String)
    (template_path : String) (images : List String) (signature_path : Option String)
    (output_path : String) : Except String Unit × FileSys :=
  if pathExists fsys template_path then
    match fsys.files template_path with
    | some (FileData.doc d) =>
      match fill_doc (pathExists fsys) embedErr d images signature_path with
      | .error e => (.error e, fsys)
      | .ok d' =>
          (.ok (),
           { files := fun p => if p = output_path then some (FileData.doc d') else fsys.files p,
             dirs := fun q => q = outputDir output_path || fsys.dirs q })
    | _ => (.error ("not a docx package: " ++ template_path), fsys)
  else (.error ("Template not found: " ++ template_path), fsys)

/-- All paragraph texts of a cell are empty (the state of a destination
cell after the clearing loop, however many pictures it holds). -/
def cellAllEmpty (c : Cell) : Prop := ∀ p ∈ c.paragraphs, p.text = ""

/-- The destination cell of a matched slot as the spec describes it, in
closed form: text cleared, every assigned image appended as a picture of
the first paragraph, and one empty paragraph appended per image.  Stated
from the spec's words for comparison with `fillCellE`. -/
def specFilledCell (dest : Cell) (imgs : List String) : Cell :=
  match (clearCell dest).paragraphs with
  | [] => ⟨[]⟩
  | q0 :: qs => ⟨{ q0 with pics := q0.pics ++ imgs } ::
      (qs ++ List.replicate imgs.length emptyPara)⟩

/-! ## Concrete fixtures for witnesses and counterexamples -/

/-- A cell holding a single paragraph of plain text. -/
def mkCell (t : String) : Cell := ⟨[⟨t, []⟩]⟩

/-- A row carrying the two marker substrings, making its table the target
table. -/
def markerRow : Row := ⟨[mkCell "Phụ lục", mkCell "Ảnh TSSS"]⟩

/-- A row in which the destination cell of the first slot label is itself
labeled with the second slot label. -/
def chainRow : Row := ⟨[mkCell "Thông tin rao bán/sổ đỏ", mkCell "Mặt trước tài sản", mkCell "X"]⟩

/-- A template whose only table is a target table containing `chainRow`. -/
def chainDoc : Document := ⟨[⟨[markerRow, chainRow]⟩], []⟩

/-- A template whose only table carries the markers and one well-behaved
label row. -/
def simpleDoc : Document :=
  ⟨[⟨[markerRow, ⟨[mkCell "Thông tin rao bán/sổ đỏ", mkCell "old"]⟩]⟩], []⟩

/-- The document produced from `simpleDoc` with the single image `a.jpg`
and no signature. -/
def simpleOutDoc : Document :=
  ⟨[⟨[markerRow,
      ⟨[mkCell "Thông tin rao bán/sổ đỏ", ⟨[⟨"", ["a.jpg"]⟩, emptyPara]⟩]⟩]⟩],
   [.pageBreak, .heading "Chữ ký cán bộ khảo sát" 2]⟩

/-- An embed oracle that never fails. -/
def embedOk : String → Option String := fun _ => none

/-- An embed oracle that fails on `sig.png` with message `boom`. -/
def embedBoom : String → Option String := fun p => if p = "sig.png" then some "boom" else none

/-- A filesystem holding only an empty docx template at `t`. -/
def fsEmptyTemplate : FileSys :=
  ⟨fun p => if p = "t" then some (FileData.doc ⟨[], []⟩) else none, fun _ => false⟩

/-- A filesystem holding the chained-label template at `t` and two image
files. -/
def fsChain : FileSys :=
  ⟨fun p => if p = "t" then some (FileData.doc chainDoc)
    else if p = "a.jpg" then some FileData.raw
    else if p = "b.jpg" then some FileData.raw
    else none, fun _ => false⟩

/-- A filesystem holding an empty docx template at `t` and a signature
file at `sig.png`. -/
def fsSig : FileSys :=
  ⟨fun p => if p = "t" then some (FileData.doc ⟨[], []⟩)
    else if p = "sig.png" then some FileData.raw
    else none, fun _ => false⟩

/-- An existence predicate under which only `a.jpg` exists. -/
def fsOnlyA : String → Bool := fun p => p == "a.jpg"

/-- An existence predicate under which `a.jpg` and `b.jpg` exist. -/
def fsAB : String → Bool := fun p => p == "a.jpg" || p == "b.jpg"

/-- The document `fill_document` saves for `chainDoc` with images
`["a.jpg", "b.jpg"]` and no signature: the first label's destination cell
was cleared and filled with `a.jpg`, destroying the second label, so the
cell after it keeps its text `X` and receives no image. -/
def chainOutDoc : Document :=
  ⟨[⟨[markerRow,
      ⟨[mkCell "Thông tin rao bán/sổ đỏ", ⟨[⟨"", ["a.jpg"]⟩, emptyPara]⟩, mkCell "X"]⟩]⟩],
   [.pageBreak, .heading "Chữ ký cán bộ khảo sát" 2]⟩

/-- The empty filesystem. -/
def fsNone : FileSys := ⟨fun _ => none, fun _ => false⟩

/-- The document saved when composing the empty template with no images
and no signature. -/
def emptyOutDoc : Document :=
  ⟨[], [.heading "Phụ lục Ảnh TSSS" 2, .pageBreak, .heading "Chữ ký cán bộ khảo sát" 2]⟩

/-! ## Basic lemmas about the embedded primitives -/

/-- A Python slice is a sublist of the sliced list. -/
theorem pySlice_sublist (xs : List α) (a b : Nat) : (pySlice xs a b).Sublist xs :=
  (List.take_sublist _ _).trans (List.drop_sublist _ _)

/-- Length of a Python slice. -/
theorem pySlice_length (xs : List α) (a b : Nat) :
    (pySlice xs a b).length = min (b - a) (xs.length - a) := by
  simp [pySlice]

/-- A slice starting beyond the end of the list is empty. -/
theorem pySlice_of_le (xs : List α) (a b : Nat) (h : xs.length ≤ a) :
    pySlice xs a b = [] := by
  apply List.eq_nil_of_length_eq_zero
  rw [pySlice_length]
  omega

/-- Processing a slot's image list is the same as processing only its
existing paths: missing paths contribute nothing. -/
theorem addImagesToCell_filter (fs : String → Bool) (e : String → Option String) :
    ∀ (imgs : List String) (c : Cell),
      addImagesToCell fs e imgs c = addImagesToCell fs e (imgs.filter fs) c := by
  intro imgs
  induction imgs with
  | nil => intro c; rfl
  | cons p rest ih =>
    intro c
    by_cases hp : fs p
    · rw [List.filter_cons, if_pos hp]
      simp only [addImagesToCell, hp, if_true]
      cases c.paragraphs with
      | nil => rfl
      | cons p0 ps =>
        cases e p with
        | some err => rfl
        | none => exact ih _
    · rw [List.filter_cons, if_neg (by simp [hp])]
      simp only [addImagesToCell, hp, if_false]
      exact ih c

/-- Same for the fallback loop. -/
theorem addFallbackImages_filter (fs : String → Bool) (e : String → Option String) :
    ∀ (imgs : List String) (body : List BodyItem),
      addFallbackImages fs e imgs body = addFallbackImages fs e (imgs.filter fs) body := by
  intro imgs
  induction imgs with
  | nil => intro body; rfl
  | cons p rest ih =>
    intro body
    by_cases hp : fs p
    · rw [List.filter_cons, if_pos hp]
      simp only [addFallbackImages, hp, if_true]
      cases e p with
      | some err => rfl
      | none => exact ih _
    · rw [List.filter_cons, if_neg (by simp [hp])]
      simp only [addFallbackImages, hp, if_false]
      exact ih body

/-- A slot whose existing paths all embed successfully fills the cell
`⟨q0 :: qs⟩` to the closed form: all pictures into the first paragraph,
one empty paragraph appended per picture. -/
theorem addImagesToCell_all_ok (fs : String → Bool) (e : String → Option String) :
    ∀ (imgs : List String), (∀ p ∈ imgs, fs p = true ∧ e p = none) →
      ∀ (q0 : Para) (qs : List Para),
        addImagesToCell fs e imgs ⟨q0 :: qs⟩ =
          .ok ⟨{ q0 with pics := q0.pics ++ imgs } ::
                (qs ++ List.replicate imgs.length emptyPara)⟩ := by
  intro imgs
  induction imgs with
  | nil => intro _ q0 qs; simp [addImagesToCell]
  | cons p rest ih =>
    intro h q0 qs
    obtain ⟨hp, he⟩ := h p (by simp)
    simp only [addImagesToCell, hp, if_true, he]
    rw [ih (fun q hq => h q (by simp [hq])) _ _]
    simp [List.replicate_succ, List.append_assoc]

/-- A slot none of whose paths exist leaves the cell untouched and
raises nothing. -/
theorem addImagesToCell_none (fs : String → Bool) (e : String → Option String) :
    ∀ (imgs : List String), (∀ p ∈ imgs, fs p = false) →
      ∀ (c : Cell), addImagesToCell fs e imgs c = .ok c := by
  intro imgs
  induction imgs with
  | nil => intro _ c; rfl
  | cons p rest ih =>
    intro h c
    have hp := h p (by simp)
    simp only [addImagesToCell, hp]
    exact ih (fun q hq => h q (by simp [hq])) c

/-- Fallback images that do not exist leave the body untouched. -/
theorem addFallbackImages_none (fs : String → Bool) (e : String → Option String) :
    ∀ (imgs : List String), (∀ p ∈ imgs, fs p = false) →
      ∀ (body : List BodyItem), addFallbackImages fs e imgs body = .ok body := by
  intro imgs
  induction imgs with
  | nil => intro _ body; rfl
  | cons p rest ih =>
    intro h body
    have hp := h p (by simp)
    simp only [addFallbackImages, hp]
    exact ih (fun q hq => h q (by simp [hq])) body

/-- The fallback loop on existing, embeddable images appends one body
picture at width `Inches(3)` and one spacer paragraph per image, in input
order. -/
theorem addFallbackImages_ok (fs : String → Bool) (e : String → Option String) :
    ∀ (imgs : List String), (∀ p ∈ imgs, fs p = true → e p = none) →
      ∀ (body : List BodyItem),
        addFallbackImages fs e imgs body =
          .ok (body ++ (imgs.filter fs).flatMap fun p => [.picture p 30, .para ""]) := by
  intro imgs
  induction imgs with
  | nil => intro _ body; simp [addFallbackImages]
  | cons p rest ih =>
    intro h body
    by_cases hp : fs p
    · have he := h p (by simp) hp
      simp only [addFallbackImages, hp, if_true, he]
      rw [ih (fun q hq hfs => h q (by simp [hq]) hfs) _]
      simp [List.filter_cons, hp, List.append_assoc]
    · simp only [addFallbackImages, hp, if_false, List.filter_cons, Bool.false_eq_true]
      exact ih (fun q hq hfs => h q (by simp [hq]) hfs) body

/-! ## Claim C5 -/

/-- C5: every image path in a slot's list or in the fallback list that does
not exist on disk is skipped without raising and without inserting a
placeholder: processing a path list is the same as processing only its
existing paths, and a list with no existing path leaves the cell and the
body exactly as they were, returning success. -/
theorem c5_missing_images_skipped (fs : String → Bool) (e : String → Option String)
    (imgs : List String) (c : Cell) (body : List BodyItem) :
    (addImagesToCell fs e imgs c = addImagesToCell fs e (imgs.filter fs) c) ∧
    (addFallbackImages fs e imgs body = addFallbackImages fs e (imgs.filter fs) body) ∧
    ((∀ p ∈ imgs, fs p = false) →
      addImagesToCell fs e imgs c = .ok c ∧ addFallbackImages fs e imgs body = .ok body) :=
  ⟨addImagesToCell_filter fs e imgs c,
   addFallbackImages_filter fs e imgs body,
   fun h => ⟨addImagesToCell_none fs e imgs h c, addFallbackImages_none fs e imgs h body⟩⟩

/-- Witness for C5 at a concrete missing path. -/
theorem c5_missing_images_skipped_witness :
    addImagesToCell (fun _ => false) (fun _ => none) ["x.jpg"] ⟨[]⟩ = .ok ⟨[]⟩ ∧
    addFallbackImages (fun _ => false) (fun _ => none) ["x.jpg"] [] = .ok [] :=
  (c5_missing_images_skipped (fun _ => false) (fun _ => none) ["x.jpg"] ⟨[]⟩ []).2.2
    (fun _ _ => rfl)

/-! ## Claim C8 -/

/-- C8: for every input image list, each binding of the slot mapping is a
total Python slice `images[a:b]` with `b ≤ 7`: a sublist of the input of
length `min (b - a) (length - a)`, never an out-of-range failure, and empty
as soon as the list ends at or before the slot's start. -/
theorem c8_slot_ranges_safe (images : List String) (lbl : String) (l : List String)
    (h : List.lookup lbl (slotMap images) = some l) :
    ∃ a b, b ≤ 7 ∧ l = pySlice images a b ∧ l.Sublist images ∧
      l.length = min (b - a) (images.length - a) ∧
      (images.length ≤ a → l = []) := by
  simp only [slotMap, List.lookup] at h
  split at h
  · injection h with h
    exact ⟨0, 1, by omega, h.symm, h ▸ pySlice_sublist _ _ _,
      h ▸ pySlice_length _ _ _, fun hle => h ▸ pySlice_of_le _ _ _ hle⟩
  · split at h
    · injection h with h
      exact ⟨1, 2, by omega, h.symm, h ▸ pySlice_sublist _ _ _,
        h ▸ pySlice_length _ _ _, fun hle => h ▸ pySlice_of_le _ _ _ hle⟩
    · split at h
      · injection h with h
        exact ⟨2, 3, by omega, h.symm, h ▸ pySlice_sublist _ _ _,
          h ▸ pySlice_length _ _ _, fun hle => h ▸ pySlice_of_le _ _ _ hle⟩
      · split at h
        · injection h with h
          exact ⟨3, 5, by omega, h.symm, h ▸ pySlice_sublist _ _ _,
            h ▸ pySlice_length _ _ _, fun hle => h ▸ pySlice_of_le _ _ _ hle⟩
        · split at h
          · injection h with h
            exact ⟨5, 7, by omega, h.symm, h ▸ pySlice_sublist _ _ _,
              h ▸ pySlice_length _ _ _, fun hle => h ▸ pySlice_of_le _ _ _ hle⟩
          · exact absurd h (by simp)

/-- Witness for C8: the last slot of an empty image list is the empty
slice. -/
theorem c8_slot_ranges_safe_witness :
    ∃ a b, b ≤ 7 ∧ ([] : List String) = pySlice ([] : List String) a b ∧
      ([] : List String).Sublist [] ∧
      ([] : List String).length = min (b - a) (([] : List String).length - a) ∧
      (([] : List String).length ≤ a → ([] : List String) = []) :=
  c8_slot_ranges_safe [] "Ảnh khác" [] (by decide)

/-! ## Table selection -/

/-- When no table carries both markers, the scan reports no target table
(and no error). -/
theorem processTables_none_of_all (slots : List (String × List String))
    (fs : String → Bool) (e : String → Option String) :
    ∀ (tables : List Table), (∀ t ∈ tables, table_has_phu_luc t = false) →
      processTables slots fs e tables = .ok none := by
  intro tables
  induction tables with
  | nil => intro _; rfl
  | cons tbl rest ih =>
    intro h
    have h0 := h tbl (by simp)
    simp only [processTables, h0, Bool.false_eq_true, if_false]
    rw [ih (fun t ht => h t (by simp [ht]))]
    rfl

/-- The scan reports no target table exactly when no table matches. -/
theorem processTables_ok_none_iff (slots : List (String × List String))
    (fs : String → Bool) (e : String → Option String) (tables : List Table) :
    processTables slots fs e tables = .ok none ↔
      ∀ t ∈ tables, table_has_phu_luc t = false := by
  constructor
  · induction tables with
    | nil => intro _ t ht; simp at ht
    | cons tbl rest ih =>
      intro h t ht
      by_cases hpred : table_has_phu_luc tbl
      · exfalso
        simp only [processTables, hpred, if_true] at h
        cases hpt : processTable slots fs e tbl with
        | error msg =>
          rw [hpt] at h
          exact Except.noConfusion (show (Except.error msg : Except String (Option (List Table))) = .ok none from h)
        | ok tbl' =>
          rw [hpt] at h
          exact Option.noConfusion (Except.ok.inj
            (show (Except.ok (some (tbl' :: rest)) : Except String (Option (List Table))) = .ok none from h))
      · simp only [processTables, hpred, Bool.false_eq_true, if_false] at h
        cases hr : processTables slots fs e rest with
        | error msg =>
          rw [hr] at h
          exact Except.noConfusion (show (Except.error msg : Except String (Option (List Table))) = .ok none from h)
        | ok o =>
          cases o with
          | none =>
            rcases List.mem_cons.mp ht with h1 | h1
            · subst h1; exact Bool.eq_false_iff.mpr hpred
            · exact ih hr t h1
          | some rest' =>
            rw [hr] at h
            exact Option.noConfusion (Except.ok.inj
              (show (Except.ok (some (tbl :: rest')) : Except String (Option (List Table))) = .ok none from h))
  · exact processTables_none_of_all slots fs e tables

/-- First-match characterization of the table scan: a selected table is
the first one in document order matching the content predicate, it is the
only table processed, and all others are untouched. -/
theorem processTables_first_match (slots : List (String × List String))
    (fs : String → Bool) (e : String → Option String) :
    ∀ (tables tables' : List Table),
      processTables slots fs e tables = .ok (some tables') →
      ∃ i, ∃ hi : i < tables.length,
        table_has_phu_luc tables[i] = true ∧
        (∀ j (hj : j < tables.length), j < i → table_has_phu_luc tables[j] = false) ∧
        ∃ tbl', processTable slots fs e tables[i] = .ok tbl' ∧ tables' = tables.set i tbl' := by
  intro tables
  induction tables with
  | nil => intro tables' h; exact absurd h (by simp [processTables])
  | cons tbl rest ih =>
    intro tables' h
    by_cases hpred : table_has_phu_luc tbl
    · simp only [processTables, hpred, if_true] at h
      cases hpt : processTable slots fs e tbl with
      | error msg =>
        rw [hpt] at h
        exact Except.noConfusion
          (show (Except.error msg : Except String (Option (List Table))) = .ok (some tables') from h)
      | ok tbl' =>
        rw [hpt] at h
        have h' : tbl' :: rest = tables' := Option.some.inj (Except.ok.inj
          (show (Except.ok (some (tbl' :: rest)) : Except String (Option (List Table)))
            = .ok (some tables') from h))
        exact ⟨0, by simp, by simpa using hpred, fun j hj hj0 => absurd hj0 (by omega),
          tbl', by simpa using hpt, by simp [h'.symm]⟩
    · simp only [processTables, hpred, Bool.false_eq_true, if_false] at h
      cases hr : processTables slots fs e rest with
      | error msg =>
        rw [hr] at h
        exact Except.noConfusion
          (show (Except.error msg : Except String (Option (List Table))) = .ok (some tables') from h)
      | ok o =>
        cases o with
        | none =>
          rw [hr] at h
          exact Option.noConfusion (Except.ok.inj
            (show (Except.ok (none : Option (List Table)) : Except String (Option (List Table)))
              = .ok (some tables') from h))
        | some rest' =>
          rw [hr] at h
          have h' : tbl :: rest' = tables' := Option.some.inj (Except.ok.inj
            (show (Except.ok (some (tbl :: rest')) : Except String (Option (List Table)))
              = .ok (some tables') from h))
          obtain ⟨i, hi, hp, hprev, tbl', hpt, hset⟩ := ih rest' hr
          refine ⟨i + 1, by simpa using Nat.succ_lt_succ hi, by simpa using hp, ?_, tbl', by simpa using hpt, ?_⟩
          · intro j hj hji
            cases j with
            | zero => simpa using Bool.eq_false_iff.mpr hpred
            | succ j' => simpa using hprev j' (by simpa using Nat.lt_of_succ_lt_succ hj) (by omega)
          · simp [h'.symm, hset]


/-! ## Claim C3 -/

/-- C3: the table scan concatenates every cell's text, selects at most one
target table — the first in document order whose text contains both marker
substrings — leaves every other table untouched, and when no table matches
it reports none (no error) and `fill_main` takes the fallback append path
instead of failing. -/
theorem c3_target_table_selection (fs : String → Bool) (e : String → Option String)
    (slots : List (String × List String)) (tables : List Table) :
    (processTables slots fs e tables = .ok none ↔
      ∀ t ∈ tables, table_has_phu_luc t = false) ∧
    (∀ tables', processTables slots fs e tables = .ok (some tables') →
      ∃ i, ∃ hi : i < tables.length, table_has_phu_luc tables[i] = true ∧
        (∀ j (hj : j < tables.length), j < i → table_has_phu_luc tables[j] = false) ∧
        ∃ tbl', processTable slots fs e tables[i] = .ok tbl' ∧ tables' = tables.set i tbl') ∧
    (∀ (doc : Document) (images : List String),
      doc.tables = tables → (∀ t ∈ tables, table_has_phu_luc t = false) →
      (∀ p ∈ images, fs p = true → e p = none) →
      fill_main fs e doc images = .ok { doc with body :=
        doc.body ++ [.heading "Phụ lục Ảnh TSSS" 2]
          ++ ((images.filter fs).flatMap (fun p => [.picture p 30, .para ""])) }) := by
  refine ⟨processTables_ok_none_iff slots fs e tables,
    processTables_first_match slots fs e tables, ?_⟩
  intro doc images hdoc hno hemb
  have hpt := processTables_none_of_all (slotMap images) fs e doc.tables (hdoc ▸ hno)
  have hfb := addFallbackImages_ok fs e images hemb
    (doc.body ++ [BodyItem.heading "Phụ lục Ảnh TSSS" 2])
  simp only [fill_main]
  rw [hpt, hfb]
  rfl

/-- Witness for C3: an empty table list triggers the fallback path. -/
theorem c3_target_table_selection_witness :
    fill_main (fun _ => false) embedOk (⟨[], []⟩ : Document) [] =
      .ok { (⟨[], []⟩ : Document) with body :=
        ([] : List BodyItem) ++ [.heading "Phụ lục Ảnh TSSS" 2]
          ++ ((([] : List String).filter (fun _ => false)).flatMap
              (fun p => [.picture p 30, .para ""])) } :=
  (c3_target_table_selection (fun _ => false) embedOk [] []).2.2 ⟨[], []⟩ [] rfl
    (fun t ht => absurd ht (List.not_mem_nil t))
    (fun p hp => absurd hp (List.not_mem_nil p))

/-! ## Claim C4 -/

/-- C4: when no table of the template carries both marker substrings,
composition appends the photo-appendix heading and then every
existing-on-disk image of the input list as a body picture at width
`Inches(3)`, in input order, each followed by a spacer paragraph (and then
the unconditional signature section); the tables are untouched. -/
theorem c4_fallback_path (fs : String → Bool) (e : String → Option String)
    (doc : Document) (images : List String) (sig : Option String)
    (hno : ∀ t ∈ doc.tables, table_has_phu_luc t = false)
    (hemb : ∀ p ∈ images, fs p = true → e p = none) :
    fill_doc fs e doc images sig = .ok { doc with body :=
      doc.body ++ [.heading "Phụ lục Ảnh TSSS" 2]
        ++ ((images.filter fs).flatMap (fun p => [.picture p 30, .para ""]))
        ++ [.pageBreak, .heading "Chữ ký cán bộ khảo sát" 2]
        ++ (signatureItems fs e sig) } := by
  have hpt := processTables_none_of_all (slotMap images) fs e doc.tables hno
  have hfb := addFallbackImages_ok fs e images hemb
    (doc.body ++ [BodyItem.heading "Phụ lục Ảnh TSSS" 2])
  simp only [fill_doc, fill_main]
  rw [hpt, hfb]
  rfl

/-- Witness for C4: an empty template, one existing and one missing image. -/
theorem c4_fallback_path_witness :
    fill_doc fsOnlyA embedOk ⟨[], []⟩ ["a.jpg", "zzz"] none =
      .ok ⟨[], [.heading "Phụ lục Ảnh TSSS" 2, .picture "a.jpg" 30, .para "",
        .pageBreak, .heading "Chữ ký cán bộ khảo sát" 2]⟩ := by
  have h := c4_fallback_path fsOnlyA embedOk ⟨[], []⟩ ["a.jpg", "zzz"] none
    (fun t ht => absurd ht (List.not_mem_nil t)) (fun p _ _ => rfl)
  rw [h]
  rfl

/-! ## Claim C6 -/

/-- C6: a missing template fails with `Template not found` before anything
is opened, and on every error outcome the filesystem is completely
unchanged — no output file and no directory is created, since the save is
the last step. -/
theorem c6_no_partial_output (fsys : FileSys) (e : String → Option String)
    (tp : String) (images : List String) (sig : Option String) (out : String) :
    (pathExists fsys tp = false →
      fill_document fsys e tp images sig out = (.error ("Template not found: " ++ tp), fsys)) ∧
    (∀ msg, (fill_document fsys e tp images sig out).1 = .error msg →
      (fill_document fsys e tp images sig out).2 = fsys) := by
  constructor
  · intro h
    simp [fill_document, h]
  · intro msg h
    by_cases hex : pathExists fsys tp
    · cases hf : fsys.files tp with
      | none => simp [fill_document, hex, hf]
      | some fd =>
        cases fd with
        | raw => simp [fill_document, hex, hf]
        | doc d =>
          cases hfd : fill_doc (pathExists fsys) e d images sig with
          | error msg' => simp [fill_document, hex, hf, hfd]
          | ok d' =>
            exfalso
            simp [fill_document, hex, hf, hfd] at h
    · simp [fill_document, hex]

/-- Witness for C6 at a concretely missing template. -/
theorem c6_no_partial_output_witness :
    fill_document fsNone embedOk "t" [] none "o" =
      (.error ("Template not found: " ++ "t"), fsNone) :=
  (c6_no_partial_output fsNone embedOk "t" [] none "o").1 rfl

/-! ## Claim C9 -/

/-- C9 (amended): on a successful run whose output path differs from the
template path, every file other than the output is untouched — in
particular the template — the output file holds a document, and the output
directory was created. -/
theorem c9_template_unmodified (fsys : FileSys) (e : String → Option String)
    (tp : String) (images : List String) (sig : Option String) (out : String)
    (hne : out ≠ tp)
    (hok : (fill_document fsys e tp images sig out).1 = .ok ()) :
    ((fill_document fsys e tp images sig out).2.files tp = fsys.files tp) ∧
    (∀ p, p ≠ out → (fill_document fsys e tp images sig out).2.files p = fsys.files p) ∧
    (∃ d', (fill_document fsys e tp images sig out).2.files out = some (FileData.doc d')) ∧
    ((fill_document fsys e tp images sig out).2.dirs (outputDir out) = true) := by
  by_cases hex : pathExists fsys tp
  · cases hf : fsys.files tp with
    | none => exfalso; simp [fill_document, hex, hf] at hok
    | some fd =>
      cases fd with
      | raw => exfalso; simp [fill_document, hex, hf] at hok
      | doc d =>
        cases hfd : fill_doc (pathExists fsys) e d images sig with
        | error msg' => exfalso; simp [fill_document, hex, hf, hfd] at hok
        | ok d' =>
          refine ⟨?_, ?_, ⟨d', ?_⟩, ?_⟩ <;>
            simp [fill_document, hex, hf, hfd, hne.symm]
          intro p hp
          simp [hp]
  · exfalso; simp [fill_document, hex] at hok

/-- Witness for C9 at a concrete successful run. -/
theorem c9_template_unmodified_witness :
    ((fill_document fsEmptyTemplate embedOk "t" [] none "o").2.files "t" =
      fsEmptyTemplate.files "t") ∧
    (∀ p, p ≠ "o" → (fill_document fsEmptyTemplate embedOk "t" [] none "o").2.files p =
      fsEmptyTemplate.files p) ∧
    (∃ d', (fill_document fsEmptyTemplate embedOk "t" [] none "o").2.files "o" =
      some (FileData.doc d')) ∧
    ((fill_document fsEmptyTemplate embedOk "t" [] none "o").2.dirs (outputDir "o") = true) :=
  c9_template_unmodified fsEmptyTemplate embedOk "t" [] none "o" (by decide) rfl

/-- C9 (counterexample): invoking `fill_document` with the output path
equal to the template path succeeds and overwrites the template, so the
claim "the input template file is never modified" fails as stated. -/
theorem c9_counterexample :
    (fill_document fsEmptyTemplate embedOk "t" [] none "t").1 = .ok () ∧
    (fill_document fsEmptyTemplate embedOk "t" [] none "t").2.files "t" ≠
      fsEmptyTemplate.files "t" := by
  constructor
  · rfl
  · decide

/-! ## Claim C1 -/

/-- C1 (counterexample): with no signature supplied, the run succeeds and
the saved document contains the signature heading but no paragraph at all
— in particular no textual placeholder noting the signature's absence —
refuting the claim that a placeholder paragraph is present. -/
theorem c1_counterexample :
    (fill_document fsEmptyTemplate embedOk "t" [] none "o").1 = .ok () ∧
    (fill_document fsEmptyTemplate embedOk "t" [] none "o").2.files "o" =
      some (FileData.doc emptyOutDoc) ∧
    BodyItem.heading "Chữ ký cán bộ khảo sát" 2 ∈ emptyOutDoc.body ∧
    emptyOutDoc.body.all
      (fun it => match it with | BodyItem.para _ => false | _ => true) = true := by
  refine ⟨rfl, by decide, by decide, by decide⟩

/-- C1 (amended): when the signature is absent — `None`, the empty string,
or a path that does not exist — the run still succeeds and the saved
document ends with the page break and the signature heading, with no
placeholder paragraph (none is ever inserted for an absent signature; a
placeholder appears only when embedding an existing signature fails). -/
theorem c1_absent_signature (fsys : FileSys) (e : String → Option String)
    (tp out : String) (images : List String) (sig : Option String) (d d₀ : Document)
    (hopen : fsys.files tp = some (FileData.doc d))
    (hmain : fill_main (pathExists fsys) e d images = .ok d₀)
    (habsent : sig = none ∨ ∃ s, sig = some s ∧ (s = "" ∨ pathExists fsys s = false)) :
    signatureItems (pathExists fsys) e sig = [] ∧
    (fill_document fsys e tp images sig out).1 = .ok () ∧
    (fill_document fsys e tp images sig out).2.files out =
      some (FileData.doc { d₀ with body :=
        d₀.body ++ [.pageBreak, .heading "Chữ ký cán bộ khảo sát" 2] }) := by
  have hsig : signatureItems (pathExists fsys) e sig = [] := by
    rcases habsent with h | ⟨s, rfl, hs⟩
    · subst h; rfl
    · rcases hs with h | h
      · subst h; simp [signatureItems]
      · simp [signatureItems, h]
  have hex : pathExists fsys tp = true := by simp [pathExists, hopen]
  have hfd : fill_doc (pathExists fsys) e d images sig = .ok { d₀ with body :=
      d₀.body ++ [.pageBreak, .heading "Chữ ký cán bộ khảo sát" 2] } := by
    unfold fill_doc
    rw [hmain]
    show Except.ok _ = _
    rw [hsig, List.append_nil]
  exact ⟨hsig, by simp [fill_document, hex, hopen, hfd],
    by simp [fill_document, hex, hopen, hfd]⟩

/-- Witness for the amended C1 at a concrete absent signature. -/
theorem c1_absent_signature_witness :
    signatureItems (pathExists fsEmptyTemplate) embedOk none = [] ∧
    (fill_document fsEmptyTemplate embedOk "t" [] none "o").1 = .ok () ∧
    (fill_document fsEmptyTemplate embedOk "t" [] none "o").2.files "o" =
      some (FileData.doc { (⟨[], [.heading "Phụ lục Ảnh TSSS" 2]⟩ : Document) with body :=
        [BodyItem.heading "Phụ lục Ảnh TSSS" 2]
          ++ [.pageBreak, .heading "Chữ ký cán bộ khảo sát" 2] }) :=
  c1_absent_signature fsEmptyTemplate embedOk "t" "o" [] none ⟨[], []⟩
    ⟨[], [.heading "Phụ lục Ảnh TSSS" 2]⟩ rfl rfl (Or.inl rfl)

/-! ## Claim C7 -/

/-- C7: a signature path that exists on disk but fails to embed is caught:
the run still succeeds, the output is saved, and the saved document ends
with the page break, the signature heading, and a paragraph recording the
failure; no exception escapes. -/
theorem c7_signature_resilience (fsys : FileSys) (e : String → Option String)
    (tp out s msg : String) (images : List String) (d d₀ : Document)
    (hopen : fsys.files tp = some (FileData.doc d))
    (hmain : fill_main (pathExists fsys) e d images = .ok d₀)
    (hs : s ≠ "") (hex : pathExists fsys s = true) (hfail : e s = some msg) :
    (fill_document fsys e tp images (some s) out).1 = .ok () ∧
    (fill_document fsys e tp images (some s) out).2.files out =
      some (FileData.doc { d₀ with body :=
        d₀.body ++ [.pageBreak, .heading "Chữ ký cán bộ khảo sát" 2,
          .para ("[Không chèn được chữ ký: " ++ msg ++ "]")] }) := by
  have hsig : signatureItems (pathExists fsys) e (some s) =
      [.para ("[Không chèn được chữ ký: " ++ msg ++ "]")] := by
    simp [signatureItems, hs, hex, hfail]
  have hext : pathExists fsys tp = true := by simp [pathExists, hopen]
  have hfd : fill_doc (pathExists fsys) e d images (some s) = .ok { d₀ with body :=
      d₀.body ++ [.pageBreak, .heading "Chữ ký cán bộ khảo sát" 2,
        .para ("[Không chèn được chữ ký: " ++ msg ++ "]")] } := by
    unfold fill_doc
    rw [hmain]
    show Except.ok _ = _
    rw [hsig]
    simp
  exact ⟨by simp [fill_document, hext, hopen, hfd],
    by simp [fill_document, hext, hopen, hfd]⟩

/-- Witness for C7: an existing signature file whose embedding fails with
message `boom`. -/
theorem c7_signature_resilience_witness :
    (fill_document fsSig embedBoom "t" [] (some "sig.png") "o").1 = .ok () ∧
    (fill_document fsSig embedBoom "t" [] (some "sig.png") "o").2.files "o" =
      some (FileData.doc { (⟨[], [.heading "Phụ lục Ảnh TSSS" 2]⟩ : Document) with body :=
        [BodyItem.heading "Phụ lục Ảnh TSSS" 2]
          ++ [.pageBreak, .heading "Chữ ký cán bộ khảo sát" 2,
            .para ("[Không chèn được chữ ký: " ++ "boom" ++ "]")] }) :=
  c7_signature_resilience fsSig embedBoom "t" "o" "sig.png" "boom" [] ⟨[], []⟩
    ⟨[], [.heading "Phụ lục Ảnh TSSS" 2]⟩ rfl rfl (by decide) rfl rfl

/-! ## Labels of cleared cells -/

/-- Joining empty strings with `"\n"` yields a string of newlines only. -/
theorem pyJoin_all_empty : ∀ (l : List String), (∀ x ∈ l, x = "") →
    ∀ ch ∈ (pyJoin "\n" l).data, ch = '\n' := by
  intro l
  induction l with
  | nil => intro _ ch hch; simp [pyJoin] at hch
  | cons x xs ih =>
    intro h ch hch
    cases xs with
    | nil =>
      rw [h x (by simp)] at hch
      simp [pyJoin] at hch
    | cons y ys =>
      rw [pyJoin, h x (by simp)] at hch
      rw [String.data_append, String.data_append] at hch
      rcases List.mem_append.mp hch with h1 | h1
      · rcases List.mem_append.mp h1 with h2 | h2
        · simp at h2
        · simpa using h2
      · exact ih (fun q hq => h q (by simp [hq])) ch h1

/-- Stripping a newline-only string gives the empty string. -/
theorem pyStrip_newlines (s : String) (h : ∀ ch ∈ s.data, ch = '\n') :
    pyStrip s = "" := by
  have h1 : s.data.dropWhile Char.isWhitespace = [] :=
    List.dropWhile_eq_nil_iff.mpr fun x hx => by rw [h x hx]; decide
  simp [pyStrip, h1]

/-- A cell whose paragraph texts are all empty has the empty label. -/
theorem cellLabel_of_allEmpty (c : Cell) (h : cellAllEmpty c) :
    pyStrip (cellText c) = "" := by
  apply pyStrip_newlines
  apply pyJoin_all_empty
  intro x hx
  rcases List.mem_map.mp hx with ⟨p, hp, rfl⟩
  exact h p hp

/-- The empty label matches no slot, whatever the image list. -/
theorem lookup_empty_slotMap (images : List String) :
    List.lookup "" (slotMap images) = none := rfl

/-- A cell whose paragraph texts are all empty fires no slot. -/
theorem slotMap_lookup_of_allEmpty (images : List String) (c : Cell)
    (h : cellAllEmpty c) :
    List.lookup (pyStrip (cellText c)) (slotMap images) = none := by
  rw [cellLabel_of_allEmpty c h]
  exact lookup_empty_slotMap images

/-- The clearing loop empties every paragraph text. -/
theorem clearCell_allEmpty (c : Cell) : cellAllEmpty (clearCell c) := by
  intro p hp
  rcases List.mem_map.mp hp with ⟨q, _, rfl⟩
  by_cases hq : q.text = ""
  · simp [hq]
  · simp [hq, emptyPara]

/-- The paragraph texts of a cleared cell, as a list. -/
theorem clearCell_texts (c : Cell) :
    (clearCell c).paragraphs.map Para.text =
      List.replicate c.paragraphs.length "" := by
  have hlen : c.paragraphs.length = ((clearCell c).paragraphs.map Para.text).length := by
    simp [clearCell]
  rw [hlen]
  apply List.eq_replicate_of_mem
  intro x hx
  rcases List.mem_map.mp hx with ⟨p, hp, rfl⟩
  exact clearCell_allEmpty c p hp

/-- Inserting images preserves all-empty paragraph texts. -/
theorem addImagesToCell_allEmpty (fs : String → Bool) (e : String → Option String) :
    ∀ (imgs : List String) (c c' : Cell), cellAllEmpty c →
      addImagesToCell fs e imgs c = .ok c' → cellAllEmpty c' := by
  intro imgs
  induction imgs with
  | nil =>
    intro c c' h heq
    cases heq
    exact h
  | cons p rest ih =>
    intro c c' h heq
    by_cases hp : fs p
    · simp only [addImagesToCell, hp, if_true] at heq
      cases hpar : c.paragraphs with
      | nil => rw [hpar] at heq; exact Except.noConfusion heq
      | cons p0 ps =>
        rw [hpar] at heq
        cases he : e p with
        | some msg => rw [he] at heq; exact Except.noConfusion heq
        | none =>
          rw [he] at heq
          refine ih _ c' ?_ heq
          intro q hq
          rcases List.mem_cons.mp hq with rfl | hq'
          · exact h p0 (by rw [hpar]; simp)
          · rcases List.mem_append.mp hq' with hq'' | hq''
            · exact h q (by rw [hpar]; simp [hq''])
            · rcases List.mem_singleton.mp hq'' with rfl
              rfl
    · simp only [addImagesToCell, hp, if_false] at heq
      exact ih c c' h heq

/-- The result of filling a destination cell has all-empty paragraph
texts. -/
theorem fillCellE_allEmpty (fs : String → Bool) (e : String → Option String)
    (imgs : List String) (c c' : Cell) (h : fillCellE fs e imgs c = .ok c') :
    cellAllEmpty c' :=
  addImagesToCell_allEmpty fs e imgs (clearCell c) c' (clearCell_allEmpty c) h

/-! ## The row loop -/

/-- Cells at or before the current index are never modified by the rest of
the loop: each iteration writes only at the index after its own. -/
theorem processRowAux_frame (slots : List (String × List String)) (fs : String → Bool)
    (e : String → Option String) :
    ∀ (fuel k : Nat) (cells res : List Cell),
      processRowAux slots fs e fuel k cells = .ok res →
      res.length = cells.length ∧ ∀ j, j ≤ k → res[j]? = cells[j]? := by
  intro fuel
  induction fuel with
  | zero =>
    intro k cells res h
    have h' : cells = res := Except.ok.inj (show Except.ok cells = .ok res from h)
    subst h'
    exact ⟨rfl, fun _ _ => rfl⟩
  | succ fuel ih =>
    intro k cells res h
    simp only [processRowAux] at h
    split at h
    · have h' : cells = res := Except.ok.inj h
      subst h'
      exact ⟨rfl, fun _ _ => rfl⟩
    · rename_i cell hc
      split at h
      · rename_i imgs hl
        split at h
        · obtain ⟨h1, h2⟩ := ih (k + 1) cells res h
          exact ⟨h1, fun j hj => h2 j (by omega)⟩
        · rename_i dest hd
          split at h
          · exact Except.noConfusion h
          · rename_i dest' hf
            obtain ⟨h1, h2⟩ := ih (k + 1) (cells.set (k + 1) dest') res h
            refine ⟨by rw [h1, List.length_set], fun j hj => ?_⟩
            rw [h2 j (by omega), List.getElem?_set_ne (by omega)]
      · obtain ⟨h1, h2⟩ := ih (k + 1) cells res h
        exact ⟨h1, fun j hj => h2 j (by omega)⟩

/-- The decisive step of the row loop: if the cell at `ci` carries (in the
original row) a label bound to `imgs`, the cell before it (if any) does
not carry a slot label, and filling the original destination succeeds and
yields `destF`, then a successful run of the loop leaves exactly `destF`
at `ci + 1`.  The invariant carried through the iterations before `ci` is
that every cell is either original or has been overwritten by a fill — and
an overwritten cell has all-empty texts, hence the empty label, so it can
never fire a slot. -/
theorem processRowAux_fire (slots : List (String × List String)) (fs : String → Bool)
    (e : String → Option String)
    (hcleared : ∀ c : Cell, cellAllEmpty c →
      List.lookup (pyStrip (cellText c)) slots = none)
    (orig : List Cell) (ci : Nat) (imgs : List String) (destF : Cell)
    (hci : ci + 1 < orig.length)
    (hfire : ∀ c, orig[ci]? = some c →
      List.lookup (pyStrip (cellText c)) slots = some imgs)
    (hprev : ci = 0 ∨ ∀ c, orig[ci - 1]? = some c →
      List.lookup (pyStrip (cellText c)) slots = none)
    (hfill : ∀ c, orig[ci + 1]? = some c → fillCellE fs e imgs c = .ok destF) :
    ∀ (fuel k : Nat) (cells res : List Cell),
      k + fuel = orig.length → k ≤ ci → cells.length = orig.length →
      (∀ j : Nat, cells[j]? = orig[j]? ∨ ∃ c, cells[j]? = some c ∧ cellAllEmpty c) →
      cells[ci]? = orig[ci]? → cells[ci + 1]? = orig[ci + 1]? →
      processRowAux slots fs e fuel k cells = .ok res →
      res[ci + 1]? = some destF := by
  intro fuel
  induction fuel with
  | zero =>
    intro k cells res hfuel hk hlen hinv hcci hcci1 h
    exact absurd hfuel (by omega)
  | succ fuel ih =>
    intro k cells res hfuel hk hlen hinv hcci hcci1 h
    simp only [processRowAux] at h
    have hklt : k < cells.length := by omega
    split at h
    · rename_i hc
      rw [List.getElem?_eq_getElem hklt] at hc
      exact Option.noConfusion hc
    · rename_i cell hc
      rcases Nat.eq_or_lt_of_le hk with hkci | hkci
      · -- the firing iteration
        subst hkci
        have hcell' : orig[k]? = some cell := by rw [← hcci]; exact hc
        split at h
        · rename_i imgs' hl
          have himgs : imgs' = imgs :=
            Option.some.inj (hl.symm.trans (hfire cell hcell'))
          subst himgs
          obtain ⟨dest, hdest⟩ : ∃ c, orig[k + 1]? = some c :=
            ⟨orig.get ⟨k + 1, hci⟩, List.getElem?_eq_getElem hci⟩
          split at h
          · rename_i hd
            rw [hcci1, hdest] at hd
            exact Option.noConfusion hd
          · rename_i dest1 hd
            have hdd : dest1 = dest := by
              rw [hcci1, hdest] at hd
              exact (Option.some.inj hd).symm
            subst hdd
            split at h
            · rename_i msg hfq
              rw [hfill dest1 (hcci1 ▸ hd)] at hfq
              exact Except.noConfusion hfq
            · rename_i dest' hfq
              have hdf : dest' = destF := by
                rw [hfill dest1 (hcci1 ▸ hd)] at hfq
                exact (Except.ok.inj hfq).symm
              subst hdf
              have hframe := processRowAux_frame slots fs e fuel (k + 1) _ res h
              rw [hframe.2 (k + 1) (le_refl _), List.getElem?_set_self (by omega)]
        · rename_i hl
          rw [hfire cell hcell'] at hl
          exact Option.noConfusion hl
      · -- an iteration strictly before `ci`
        split at h
        · rename_i imgs' hl
          have hne : k + 1 ≠ ci := by
            intro hkeq
            rcases hinv k with hcoq | ⟨c, hcq, hce⟩
            · rcases hprev with h0 | hpv
              · omega
              · have horig : orig[ci - 1]? = some cell := by
                  rw [show ci - 1 = k from by omega, ← hcoq]
                  exact hc
                rw [hpv cell horig] at hl
                exact Option.noConfusion hl
            · have hcc : c = cell := Option.some.inj (hcq ▸ hc)
              rw [hcleared cell (hcc ▸ hce)] at hl
              exact Option.noConfusion hl
          have hklt1 : k + 1 < cells.length := by omega
          split at h
          · rename_i hd
            rw [List.getElem?_eq_getElem hklt1] at hd
            exact Option.noConfusion hd
          · rename_i dest1 hd
            split at h
            · exact Except.noConfusion h
            · rename_i dest'' hfq
              refine ih (k + 1) (cells.set (k + 1) dest'') res
                (by omega) (by omega)
                (by rw [List.length_set]; exact hlen) ?_ ?_ ?_ h
              · intro j
                by_cases hj : j = k + 1
                · subst hj
                  exact Or.inr ⟨dest'', List.getElem?_set_self (by omega),
                    fillCellE_allEmpty fs e imgs' dest1 dest'' hfq⟩
                · rw [List.getElem?_set_ne (fun hh => hj hh.symm)]
                  exact hinv j
              · rw [List.getElem?_set_ne hne]
                exact hcci
              · rw [List.getElem?_set_ne (by omega)]
                exact hcci1
        · rename_i hl
          exact ih (k + 1) cells res (by omega) (by omega) hlen hinv hcci hcci1 h

/-- Filling a destination cell with images that all exist and all embed
matches the spec's closed form. -/
theorem fillCellE_all_ok (fs : String → Bool) (e : String → Option String)
    (imgs : List String) (dest : Cell)
    (hex : ∀ p ∈ imgs, fs p = true ∧ e p = none)
    (hpar : dest.paragraphs ≠ []) :
    fillCellE fs e imgs dest = .ok (specFilledCell dest imgs) := by
  cases hq : (clearCell dest).paragraphs with
  | nil =>
    exfalso
    apply hpar
    have hlen := congrArg List.length hq
    simp only [clearCell, List.length_map] at hlen
    exact List.eq_nil_of_length_eq_zero hlen
  | cons q0 qs =>
    have h1 : clearCell dest = ⟨q0 :: qs⟩ := by rw [← hq]
    unfold fillCellE
    rw [h1, addImagesToCell_all_ok fs e imgs hex q0 qs]
    unfold specFilledCell
    rw [hq]

/-- The texts of the spec's filled cell: all empty, one per original
paragraph plus one per inserted image. -/
theorem specFilledCell_texts (dest : Cell) (imgs : List String)
    (hpar : dest.paragraphs ≠ []) :
    (specFilledCell dest imgs).paragraphs.map Para.text =
      List.replicate (dest.paragraphs.length + imgs.length) "" := by
  cases hq : (clearCell dest).paragraphs with
  | nil =>
    exfalso
    apply hpar
    have hlen := congrArg List.length hq
    simp only [clearCell, List.length_map] at hlen
    exact List.eq_nil_of_length_eq_zero hlen
  | cons q0 qs =>
    have htexts := clearCell_texts dest
    rw [hq, List.map_cons] at htexts
    unfold specFilledCell
    rw [hq]
    simp only [List.map_cons, List.map_append, List.map_replicate]
    have hemp : emptyPara.text = "" := rfl
    rw [hemp, List.replicate_add, ← List.cons_append]
    congr 1

/-- Pointwise reading of a successful `mapM` over `Except`. -/
theorem mapM_ok_pointwise {α β : Type} (f : α → Except String β) :
    ∀ (l : List α) (l' : List β), l.mapM f = .ok l' →
      l'.length = l.length ∧
      ∀ (j : Nat) (a : α), l[j]? = some a → ∃ b, f a = .ok b ∧ l'[j]? = some b := by
  intro l
  induction l with
  | nil =>
    intro l' h
    have h' : ([] : List β) = l' :=
      Except.ok.inj (show Except.ok ([] : List β) = .ok l' from h)
    subst h'
    exact ⟨rfl, fun j a ha => by simp at ha⟩
  | cons a rest ih =>
    intro l' h
    rw [List.mapM_cons] at h
    cases hfa : f a with
    | error msg => rw [hfa] at h; exact Except.noConfusion h
    | ok b =>
      rw [hfa] at h
      cases hrest : rest.mapM f with
      | error msg => rw [hrest] at h; exact Except.noConfusion h
      | ok bs =>
        rw [hrest] at h
        have h' : b :: bs = l' :=
          Except.ok.inj (show Except.ok (b :: bs) = .ok l' from h)
        subst h'
        obtain ⟨h1, h2⟩ := ih bs hrest
        refine ⟨by simp [h1], ?_⟩
        intro j x hx
        cases j with
        | zero =>
          rw [List.getElem?_cons_zero] at hx
          exact ⟨b, (Option.some.inj hx) ▸ hfa, List.getElem?_cons_zero⟩
        | succ j' =>
          rw [List.getElem?_cons_succ] at hx
          obtain ⟨b', hb1, hb2⟩ := h2 j' x hx
          exact ⟨b', hb1, by rw [List.getElem?_cons_succ]; exact hb2⟩

/-! ## Claim C10 -/

/-- C10: in the target-table branch, a cell whose text matches a slot
label and has a following cell gets that following cell's non-empty
paragraph texts cleared unconditionally, before any existence check — so
even when none of the slot's images exist on disk, a successful run leaves
the destination cell exactly cleared: every paragraph text emptied, no
picture added.  (As in the amended C2, the label cell must not itself be
the destination of an immediately preceding label cell.) -/
theorem c10_unconditional_clear (fs : String → Bool) (e : String → Option String)
    (images : List String) (cells res : List Cell) (ci : Nat)
    (imgs : List String) (dest : Cell)
    (hfire : ∀ c, cells[ci]? = some c →
      List.lookup (pyStrip (cellText c)) (slotMap images) = some imgs)
    (hprev : ci = 0 ∨ ∀ c, cells[ci - 1]? = some c →
      List.lookup (pyStrip (cellText c)) (slotMap images) = none)
    (hdest : cells[ci + 1]? = some dest)
    (hmiss : ∀ p ∈ imgs, fs p = false)
    (hok : processRow (slotMap images) fs e cells = .ok res) :
    res[ci + 1]? = some (clearCell dest) ∧
    (clearCell dest).paragraphs.map Para.text =
      List.replicate dest.paragraphs.length "" := by
  have hci : ci + 1 < cells.length := by
    by_contra hcon
    rw [List.getElem?_eq_none (by omega)] at hdest
    exact Option.noConfusion hdest
  have hfill : ∀ c, cells[ci + 1]? = some c →
      fillCellE fs e imgs c = .ok (clearCell dest) := by
    intro c hc
    have hcd : c = dest := Option.some.inj (hc.symm.trans hdest)
    subst hcd
    unfold fillCellE
    exact addImagesToCell_none fs e imgs hmiss (clearCell c)
  exact ⟨processRowAux_fire (slotMap images) fs e (slotMap_lookup_of_allEmpty images)
    cells ci imgs (clearCell dest) hci hfire hprev hfill cells.length 0 cells res
    (by omega) (Nat.zero_le ci) rfl (fun j => Or.inl rfl) rfl rfl hok,
    clearCell_texts dest⟩

/-- Witness for C10: the cell after the `Ảnh khác` label loses its text
even though both images of that slot are missing. -/
theorem c10_unconditional_clear_witness :
    ([mkCell "Ảnh khác", clearCell (mkCell "old")] : List Cell)[0 + 1]? =
      some (clearCell (mkCell "old")) ∧
    (clearCell (mkCell "old")).paragraphs.map Para.text =
      List.replicate (mkCell "old").paragraphs.length "" := by
  have h := c10_unconditional_clear (fun _ => false) embedOk
    ["a", "b", "c", "d", "e", "f", "g"]
    [mkCell "Ảnh khác", mkCell "old"] [mkCell "Ảnh khác", clearCell (mkCell "old")]
    0 ["f", "g"] (mkCell "old")
    (fun c hc => by
      have hcc : mkCell "Ảnh khác" = c :=
        Option.some.inj (show some (mkCell "Ảnh khác") = some c from hc)
      subst hcc
      decide)
    (Or.inl rfl) rfl (fun p _ => rfl) rfl
  exact h

/-! ## Claim C2 -/

/-- C2 (amended): for a template whose first marker-matching table has a
row with a slot-labeled cell followed by another cell — the label cell not
being itself the destination of an immediately preceding label cell — a
successful composition fills the following cell exactly as the spec's
closed form: the assigned existing images inserted in order into its first
paragraph, one empty paragraph appended per image, and every pre-existing
paragraph text removed. -/
theorem c2_slot_insertion (fs : String → Bool) (e : String → Option String)
    (doc outDoc : Document) (images : List String) (sig : Option String)
    (ti ri ci : Nat) (tbl : Table) (row : Row) (dest : Cell) (imgs : List String)
    (htbl : doc.tables[ti]? = some tbl)
    (hmatch : table_has_phu_luc tbl = true)
    (hfirst : ∀ j, j < ti → ∀ t, doc.tables[j]? = some t →
      table_has_phu_luc t = false)
    (hrow : tbl.rows[ri]? = some row)
    (hfire : ∀ c, row.cells[ci]? = some c →
      List.lookup (pyStrip (cellText c)) (slotMap images) = some imgs)
    (hprev : ci = 0 ∨ ∀ c, row.cells[ci - 1]? = some c →
      List.lookup (pyStrip (cellText c)) (slotMap images) = none)
    (hdest : row.cells[ci + 1]? = some dest)
    (hex : ∀ p ∈ imgs, fs p = true ∧ e p = none)
    (hpar : dest.paragraphs ≠ [])
    (hok : fill_doc fs e doc images sig = .ok outDoc) :
    ∃ tbl' row', outDoc.tables[ti]? = some tbl' ∧ tbl'.rows[ri]? = some row' ∧
      row'.cells[ci + 1]? = some (specFilledCell dest imgs) ∧
      (specFilledCell dest imgs).paragraphs.map Para.text =
        List.replicate (dest.paragraphs.length + imgs.length) "" := by
  unfold fill_doc at hok
  obtain ⟨d0, hm⟩ : ∃ d0, fill_main fs e doc images = .ok d0 := by
    cases h' : fill_main fs e doc images with
    | error msg => rw [h'] at hok; exact Except.noConfusion hok
    | ok d0 => exact ⟨d0, rfl⟩
  rw [hm] at hok
  have htab : outDoc.tables = d0.tables := by
    have h1 : ({ d0 with body := d0.body
        ++ [BodyItem.pageBreak, BodyItem.heading "Chữ ký cán bộ khảo sát" 2]
        ++ signatureItems fs e sig } : Document) = outDoc :=
      Except.ok.inj (show Except.ok _ = Except.ok outDoc from hok)
    rw [← h1]
  simp only [fill_main] at hm
  obtain ⟨tables', hpt⟩ : ∃ tables',
      processTables (slotMap images) fs e doc.tables = .ok (some tables') := by
    cases h' : processTables (slotMap images) fs e doc.tables with
    | error msg => rw [h'] at hm; exact Except.noConfusion hm
    | ok o =>
      cases o with
      | none =>
        exfalso
        have hall := (processTables_ok_none_iff (slotMap images) fs e doc.tables).mp h'
        rw [hall tbl (List.getElem?_mem htbl)] at hmatch
        exact Bool.noConfusion hmatch
      | some tables' => exact ⟨tables', rfl⟩
  rw [hpt] at hm
  have hd0 : ({ doc with tables := tables' } : Document) = d0 :=
    Except.ok.inj (show Except.ok _ = Except.ok d0 from hm)
  have hd0t : d0.tables = tables' := by rw [← hd0]
  obtain ⟨i, hi, hpi, hprevi, tbl₂, hptbl, hset⟩ :=
    processTables_first_match (slotMap images) fs e doc.tables tables' hpt
  have hti_lt : ti < doc.tables.length := by
    by_contra hcon
    rw [List.getElem?_eq_none (by omega)] at htbl
    exact Option.noConfusion htbl
  have htbl_get : doc.tables[ti] = tbl :=
    Option.some.inj ((List.getElem?_eq_getElem hti_lt).symm.trans htbl)
  have hieq : i = ti := by
    rcases Nat.lt_trichotomy i ti with hlt | heq | hgt
    · rw [hfirst i hlt (doc.tables[i]) (List.getElem?_eq_getElem hi)] at hpi
      exact Bool.noConfusion hpi
    · exact heq
    · rw [← htbl_get, hprevi ti hti_lt hgt] at hmatch
      exact Bool.noConfusion hmatch
  subst hieq
  have htbl2 : processTable (slotMap images) fs e tbl = .ok tbl₂ := by
    rw [← htbl_get]; exact hptbl
  have hout_t : outDoc.tables[i]? = some tbl₂ := by
    rw [htab, hd0t, hset]
    exact List.getElem?_set_self (by omega)
  unfold processTable at htbl2
  obtain ⟨rows', hmm⟩ : ∃ rows', tbl.rows.mapM (fun r => do
      let cs ← processRow (slotMap images) fs e r.cells
      pure (Row.mk cs)) = .ok rows' := by
    cases h' : tbl.rows.mapM (fun r => do
        let cs ← processRow (slotMap images) fs e r.cells
        pure (Row.mk cs)) with
    | error msg => rw [h'] at htbl2; exact Except.noConfusion htbl2
    | ok rows' => exact ⟨rows', rfl⟩
  rw [hmm] at htbl2
  have htbl2' : Table.mk rows' = tbl₂ :=
    Except.ok.inj (show Except.ok (Table.mk rows') = Except.ok tbl₂ from htbl2)
  obtain ⟨hlenr, hpw⟩ := mapM_ok_pointwise _ tbl.rows rows' hmm
  obtain ⟨row', hrowf, hrow'⟩ := hpw ri row hrow
  obtain ⟨cells', hpr⟩ : ∃ cells',
      processRow (slotMap images) fs e row.cells = .ok cells' := by
    cases h' : processRow (slotMap images) fs e row.cells with
    | error msg =>
      rw [h'] at hrowf
      exact Except.noConfusion
        (show (Except.error msg : Except String Row) = .ok row' from hrowf)
    | ok cells' => exact ⟨cells', rfl⟩
  rw [hpr] at hrowf
  have hrowmk : Row.mk cells' = row' :=
    Except.ok.inj (show Except.ok (Row.mk cells') = Except.ok row' from hrowf)
  have hci : ci + 1 < row.cells.length := by
    by_contra hcon
    rw [List.getElem?_eq_none (by omega)] at hdest
    exact Option.noConfusion hdest
  have hfill : ∀ c, row.cells[ci + 1]? = some c →
      fillCellE fs e imgs c = .ok (specFilledCell dest imgs) := by
    intro c hc
    have hcd : c = dest := Option.some.inj (hc.symm.trans hdest)
    subst hcd
    exact fillCellE_all_ok fs e imgs c hex hpar
  have hres := processRowAux_fire (slotMap images) fs e
    (slotMap_lookup_of_allEmpty images) row.cells ci imgs (specFilledCell dest imgs)
    hci hfire hprev hfill row.cells.length 0 row.cells cells'
    (by omega) (Nat.zero_le ci) rfl (fun j => Or.inl rfl) rfl rfl hpr
  refine ⟨tbl₂, Row.mk cells', hout_t, ?_, hres, specFilledCell_texts dest imgs hpar⟩
  rw [← htbl2']
  show rows'[ri]? = some (Row.mk cells')
  rw [hrowmk]
  exact hrow'

/-- Witness for the amended C2: one table, one label row, one existing
image. -/
theorem c2_slot_insertion_witness :
    ∃ tbl' row', simpleOutDoc.tables[0]? = some tbl' ∧ tbl'.rows[1]? = some row' ∧
      row'.cells[0 + 1]? = some (specFilledCell (mkCell "old") ["a.jpg"]) ∧
      (specFilledCell (mkCell "old") ["a.jpg"]).paragraphs.map Para.text =
        List.replicate ((mkCell "old").paragraphs.length + (["a.jpg"] : List String).length) "" := by
  have h := c2_slot_insertion fsOnlyA embedOk simpleDoc simpleOutDoc ["a.jpg"] none
    0 1 0 ⟨[markerRow, ⟨[mkCell "Thông tin rao bán/sổ đỏ", mkCell "old"]⟩]⟩
    ⟨[mkCell "Thông tin rao bán/sổ đỏ", mkCell "old"]⟩ (mkCell "old") ["a.jpg"]
    rfl (by decide) (fun j h0 t ht => absurd h0 (Nat.not_lt_zero j)) rfl
    (fun c hc => by
      have hcc : mkCell "Thông tin rao bán/sổ đỏ" = c :=
        Option.some.inj (show some (mkCell "Thông tin rao bán/sổ đỏ") = some c from hc)
      subst hcc
      decide)
    (Or.inl rfl) rfl
    (fun p hp => by
      rcases List.mem_singleton.mp hp with rfl
      exact ⟨rfl, rfl⟩)
    (by decide) rfl
  exact h

/-- C2 (counterexample): in a row `[label₁, label₂, X]` the destination of
`label₁` is the cell carrying `label₂`; it is cleared and filled before
being visited, so `label₂` never fires and the cell after it (which the
claim says receives `min(N, range)` = 1 image) stays untouched with its
text `X` and no picture. -/
theorem c2_counterexample :
    pyStrip (cellText (mkCell "Mặt trước tài sản")) = "Mặt trước tài sản" ∧
    chainRow.cells[1]? = some (mkCell "Mặt trước tài sản") ∧
    chainRow.cells[2]? = some (mkCell "X") ∧
    List.lookup "Mặt trước tài sản" (slotMap ["a.jpg", "b.jpg"]) = some ["b.jpg"] ∧
    pathExists fsChain "b.jpg" = true ∧
    (fill_document fsChain embedOk "t" ["a.jpg", "b.jpg"] none "o").1 = .ok () ∧
    (fill_document fsChain embedOk "t" ["a.jpg", "b.jpg"] none "o").2.files "o" =
      some (FileData.doc chainOutDoc) ∧
    ((chainOutDoc.tables[0]?.bind (fun tb => tb.rows[1]?)).bind
      (fun r => r.cells[2]?)) = some (mkCell "X") ∧
    (mkCell "X").paragraphs.all (fun p => p.pics.isEmpty) = true := by
  refine ⟨by decide, by decide, by decide, by decide, by decide, rfl, by decide,
    by decide, by decide⟩

end Amis
